import Mathlib

/-!
Verification of the gql-generator core (src/index.js).

The JavaScript source is shallowly embedded below.  The generator's shared
mutable objects (argumentsDict, duplicateArgCounts, crossReferenceKeyList,
all mutated in place across the recursion) are threaded explicitly as a
GenState value; the recursion itself, which need not terminate on every
schema, is given fuel (a call that runs out of fuel returns none).  A
lookup that would throw a TypeError in JavaScript (an unknown type name, a
missing field) also returns none.  Apart from that, every branch follows
src/index.js line by line; the line numbers are cited in comments.
-/

namespace GqlGen

/-- An argument of a field: its name and its declared type rendered as in the
schema source (used verbatim by getVarsToTypesStr, line 57 of index.js). -/
structure Arg where
  name : String
  typeStr : String
deriving DecidableEq, Repr

/-- A field of an object type: name, the rendered declared type
(field.type.inspect(), line 82), arguments in declaration order, and the
deprecation flag (line 98). -/
structure FieldDef where
  name : String
  typeStr : String
  args : List Arg
  isDeprecated : Bool
deriving DecidableEq, Repr

/-- A named type of the schema: a leaf (scalar or enum: no getFields), an
object type (getFields returns its fields), or a union type
(astNode.kind = UnionTypeDefinition, getTypes returns member names). -/
inductive TypeDef where
  | scalar
  | object (fields : List FieldDef)
  | union (members : List String)
deriving DecidableEq, Repr

/-- The schema: the type map, in declaration order. -/
structure Schema where
  types : List (String × TypeDef)
deriving DecidableEq, Repr

/-- gqlSchema.getType(name): look a type up by name. -/
def Schema.getType (s : Schema) (n : String) : Option TypeDef :=
  (s.types.find? fun p => p.1 = n).map fun p => p.2

/-- curType.getFields: present exactly on object types. -/
def TypeDef.fieldsOf : TypeDef → Option (List FieldDef)
  | TypeDef.object fs => some fs
  | _ => none

/-- field.type.inspect().replace (line 82 of index.js): strip the list and
non-null wrapper characters from a rendered type. -/
def stripWrappers (s : String) : String :=
  String.mk (s.data.filter fun ch => ch ≠ '[' && ch ≠ ']' && ch ≠ '!')

/-- gqlSchema.getType(curParentType).getFields()[curName] (line 81). -/
def lookupField (sch : Schema) (tyName fieldName : String) : Option FieldDef :=
  match sch.getType tyName with
  | some (TypeDef.object fs) => fs.find? fun f => f.name = fieldName
  | _ => none

/-- JavaScript object read obj[k] on a string-keyed object, embedded as an
insertion-ordered association list. -/
def lookupKey {α : Type} (l : List (String × α)) (k : String) : Option α :=
  (l.find? fun p => p.1 = k).map fun p => p.2

/-- JavaScript `k in obj` / truthiness of obj[k] (values are never falsy in
the source: they are Arg objects or counters starting at 1). -/
def hasKey {α : Type} (l : List (String × α)) (k : String) : Bool :=
  (l.find? fun p => p.1 = k).isSome

/-- JavaScript object write obj[k] = v: overwrite in place if the key
exists (keeping its position), else append. -/
def setKey {α : Type} : List (String × α) → String → α → List (String × α)
  | [], k, v => [(k, v)]
  | (k', v') :: rest, k, v =>
    if k' = k then (k', v) :: rest else (k', v') :: setKey rest k v

/-- Object.assign(target, src) (line 111): merge src into target pairwise. -/
def assignDict {α : Type} (target src : List (String × α)) : List (String × α) :=
  src.foldl (fun t p => setKey t p.1 p.2) target

/-- One step of the reduce in getFieldArgsDict (lines 28-41 of index.js):
given the accumulated per-field dictionary o and the (aliased, mutated in
place) duplicateArgCounts, bind one argument. -/
def argStep (allArgsDict : List (String × Arg))
    (acc : List (String × Arg) × List (String × Nat)) (arg : Arg) :
    List (String × Arg) × List (String × Nat) :=
  match lookupKey acc.2 arg.name with
  | some count =>
    let index := count + 1
    (setKey acc.1 (arg.name ++ toString index) arg, setKey acc.2 arg.name index)
  | none =>
    if hasKey allArgsDict arg.name then
      (setKey acc.1 (arg.name ++ "1") arg, setKey acc.2 arg.name 1)
    else
      (setKey acc.1 arg.name arg, acc.2)

/-- getFieldArgsDict (lines 22-42): fold argStep over the field's arguments
in declaration order, starting from an empty per-field dictionary; returns
the per-field dictionary together with the updated duplicateArgCounts. -/
def getFieldArgsDict (field : FieldDef) (duplicateArgCounts : List (String × Nat))
    (allArgsDict : List (String × Arg)) :
    List (String × Arg) × List (String × Nat) :=
  field.args.foldl (argStep allArgsDict) ([], duplicateArgCounts)

/-- Array.prototype.join(', ') as used by the two rendering helpers. -/
def joinComma : List String → String
  | [] => ""
  | [s] => s
  | s :: rest => s ++ ", " ++ joinComma rest

/-- getArgsToVarsStr (lines 48-50): "argName: $varName, ...". -/
def getArgsToVarsStr (dict : List (String × Arg)) : String :=
  joinComma (dict.map fun p => p.2.name ++ ": $" ++ p.1)

/-- getVarsToTypesStr (lines 56-58): "$varName: Type, ...". -/
def getVarsToTypesStr (dict : List (String × Arg)) : String :=
  joinComma (dict.map fun p => "$" ++ p.1 ++ ": " ++ p.2.typeStr)

/-- The configuration set by gqlGenerate (lines 197-200). -/
structure Config where
  depthLimit : Nat
  excludeNestedArgs : Bool
  includeDeprecatedFields : Bool
deriving DecidableEq, Repr

/-- The three objects generateQuery mutates in place, threaded explicitly:
argumentsDict, duplicateArgCounts, crossReferenceKeyList. -/
structure GenState where
  argumentsDict : List (String × Arg)
  duplicateArgCounts : List (String × Nat)
  crossReferenceKeyList : List String
deriving DecidableEq, Repr

/-- The per-call parameters of generateQuery (lines 71-80). -/
structure GenCall where
  curName : String
  curParentType : String
  curParentName : String
  st : GenState
  curDepth : Nat
  fromUnion : Bool
deriving DecidableEq, Repr

/-- What one generateQuery call returns: queryStr plus the state of the
shared objects after the call (line 144 returns queryStr and the by-then
mutated argumentsDict; duplicateArgCounts and crossReferenceKeyList are
the same shared objects). -/
structure GenResult where
  queryStr : String
  st : GenState
deriving DecidableEq, Repr

/-- '    '.repeat(n). -/
def indent : Nat → String
  | 0 => ""
  | n + 1 => "    " ++ indent n

/-- .filter(cur => Boolean(cur)).join('\n') (lines 102-103, 133-134). -/
def joinParts : List String → String
  | [] => ""
  | [s] => s
  | s :: rest => s ++ "\n" ++ joinParts rest

def joinNonempty (parts : List String) : String :=
  joinParts (parts.filter fun s => s ≠ "")

/-- Lines 106-117 of index.js: render the field name, its argument list when
`field.args.length > 0 && (curDepth <= 1 || !excludeNestedArgs)` (binding the
arguments into argumentsDict via getFieldArgsDict and Object.assign), and
wrap a non-empty childQuery in braces.  The caller only uses this when the
guard on line 106 passed. -/
def renderField (cfg : Config) (field : FieldDef) (c : GenCall)
    (childQuery : String) (st : GenState) : String × GenState :=
  match
    (if field.args.length ≠ 0 && (c.curDepth ≤ 1 || !cfg.excludeNestedArgs) then
      match getFieldArgsDict field st.duplicateArgCounts st.argumentsDict with
      | (dict, dup') =>
        (indent c.curDepth ++ field.name ++ "(" ++ getArgsToVarsStr dict ++ ")",
         GenState.mk (assignDict st.argumentsDict dict) dup'
           st.crossReferenceKeyList)
    else (indent c.curDepth ++ field.name, st)) with
  | (withArgs, st') =>
    if childQuery = "" then (withArgs, st')
    else
      (withArgs ++ "\x7b\n" ++ childQuery ++ "\n" ++ indent c.curDepth ++ "\x7d",
       st')

/-- Lines 94-103 and 130-134: run the recursion gq over a list of child field
names under a fixed parent, threading the shared state left to right, and
collect the raw queryStrs (empties included; they are filtered at the join). -/
def genFieldsAux (gq : GenCall → Option GenResult) :
    List String → String → String → GenState → Nat → Bool →
    Option (List String × GenState)
  | [], _, _, st, _, _ => some ([], st)
  | n :: ns, pty, pname, st, d, fu =>
    match gq (GenCall.mk n pty pname st d fu) with
    | none => none
    | some (GenResult.mk q rst) =>
      match genFieldsAux gq ns pty pname rst d fu with
      | none => none
      | some (rest, st') => some (q :: rest, st')

/-- Lines 127-140: the for-loop over the union's member types.  Each member's
fields are expanded at curDepth + 2 with fromUnion = true; a non-empty
member expansion is wrapped in an `... on Member` inline fragment, an empty
one contributes nothing. -/
def genUnionAux (sch : Schema) (gq : GenCall → Option GenResult) :
    List String → String → GenState → Nat → Option (String × GenState)
  | [], _, st, _ => some ("", st)
  | m :: ms, curName, st, curDepth =>
    match sch.getType m with
    | none => none
    | some mty =>
      match mty.fieldsOf with
      | none => none
      | some mfields =>
        match genFieldsAux gq (mfields.map fun f => f.name) m curName st
            (curDepth + 2) true with
        | none => none
        | some (parts, st1) =>
          let unionChildQuery := joinNonempty parts
          let frag :=
            if unionChildQuery = "" then ""
            else
              indent (curDepth + 1) ++ "... on " ++ m ++ " \x7b\n" ++
                unionChildQuery ++ "\n" ++ indent (curDepth + 1) ++ "\x7d\n"
          match genUnionAux sch gq ms curName st1 curDepth with
          | none => none
          | some (rest, st2) => some (frag ++ rest, st2)

/-- One unfolding of generateQuery (lines 71-145 of index.js), with gq
standing for the recursive calls. -/
def generateQueryBody (sch : Schema) (cfg : Config)
    (gq : GenCall → Option GenResult) (c : GenCall) : Option GenResult :=
  match lookupField sch c.curParentType c.curName with
  | none => none
  | some field =>
    match sch.getType (stripWrappers field.typeStr) with
    | none => none
    | some curType =>
      match curType with
      | TypeDef.object curFields =>
        -- lines 87-104: curType.getFields is present
        let crossReferenceKey := c.curParentName ++ "To" ++ c.curName ++ "Key"
        if c.st.crossReferenceKeyList.contains crossReferenceKey
            || decide ((if c.fromUnion then (c.curDepth : Int) - 2
                        else (c.curDepth : Int)) > (cfg.depthLimit : Int)) then
          -- line 89: return '' (no state change beyond what already happened)
          some (GenResult.mk "" c.st)
        else
          -- line 91: push the key unless fromUnion
          let refs :=
            if c.fromUnion then c.st.crossReferenceKeyList
            else c.st.crossReferenceKeyList ++ [crossReferenceKey]
          -- lines 93-99: child keys, deprecated children filtered out
          let childKeys :=
            (curFields.filter fun f =>
              cfg.includeDeprecatedFields || !f.isDeprecated).map fun f => f.name
          match genFieldsAux gq childKeys (stripWrappers field.typeStr) c.curName
              (GenState.mk c.st.argumentsDict c.st.duplicateArgCounts refs)
              (c.curDepth + 1) c.fromUnion with
          | none => none
          | some (parts, st1) =>
            let childQuery := joinNonempty parts
            -- line 106: object type with empty childQuery renders nothing
            if childQuery = "" then some (GenResult.mk "" st1)
            else
              match renderField cfg field c childQuery st1 with
              | (q, st2) => some (GenResult.mk q st2)
      | TypeDef.scalar =>
        -- leaf type: childQuery is '', line 106 condition holds, no union block
        match renderField cfg field c "" c.st with
        | (q, st2) => some (GenResult.mk q st2)
      | TypeDef.union members =>
        -- line 106 condition holds (no getFields); lines 119-143 apply
        match renderField cfg field c "" c.st with
        | (q, st2) =>
          if members.isEmpty then some (GenResult.mk q st2)
          else
            match genUnionAux sch gq members c.curName st2 c.curDepth with
            | none => none
            | some (frags, st3) =>
              some (GenResult.mk
                (q ++ "\x7b\n" ++ frags ++ indent c.curDepth ++ "\x7d") st3)

/-- generateQuery (lines 71-145), with fuel for the recursion. -/
def generateQuery (sch : Schema) (cfg : Config) : Nat → GenCall → Option GenResult
  | 0 => fun _ => none
  | fuel + 1 => fun c => generateQueryBody sch cfg (generateQuery sch cfg fuel) c

/-- The root call made by generateFile (line 178): generateQuery(type,
description) leaves curParentName undefined, so the template literal on line
88 renders it as the string "undefined"; all accumulators start empty,
curDepth = 1, fromUnion = false. -/
def rootCall (operationTypeName fieldName : String) : GenCall :=
  GenCall.mk fieldName operationTypeName "undefined" (GenState.mk [] [] []) 1 false

/-- description.toLowerCase() (line 181), character by character. -/
def strToLower (s : String) : String := String.mk (s.data.map Char.toLower)

/-- Lines 178-181 of index.js: the per-root-field document, signature line
plus body. -/
def generateDocument (sch : Schema) (cfg : Config)
    (description fieldName : String) (fuel : Nat) : Option String :=
  match generateQuery sch cfg fuel (rootCall description fieldName) with
  | none => none
  | some (GenResult.mk queryStr st) =>
    let varsToTypesStr := getVarsToTypesStr st.argumentsDict
    some (strToLower description ++ " " ++ fieldName ++
      (if varsToTypesStr = "" then "" else "(" ++ varsToTypesStr ++ ")") ++
      "\x7b\n" ++ queryStr ++ "\n\x7d")

/-! ### Auxiliary definitions used by the statements -/

/-- The balance contribution of a character: +1 for an opening brace, -1 for
a closing brace, 0 otherwise. -/
def charBal (ch : Char) : Int :=
  if ch = '\x7b' then 1 else if ch = '\x7d' then -1 else 0

/-- The maximum running brace balance over all positions of the character
list, starting from cur. -/
def balPeak : List Char → Int → Int
  | [], cur => cur
  | ch :: cs, cur => max cur (balPeak cs (cur + charBal ch))

/-- The maximum nesting depth of braces in a string. -/
def braceDepth (s : String) : Int := balPeak s.data 0

/-- True when the string contains no opening parenthesis. -/
def noParen (s : String) : Bool := s.data.all fun ch => ch ≠ '('

/-- True when every rendered name of the schema (field names of object
types, member names of union types) contains no parenthesis; argument
lists aside, these are the only schema strings generateQuery copies into
its output. -/
def parenFreeSchema (sch : Schema) : Bool :=
  sch.types.all fun p =>
    match p.2 with
    | TypeDef.object fs => fs.all fun f => noParen f.name
    | TypeDef.union ms => ms.all noParen
    | TypeDef.scalar => true

/-- One step of the Binder rule as the spec states it (§4.1): if the
argument's base name already has an entry in the duplicate counter,
increment that counter to newIndex and bind to name ++ newIndex; else if
the base name already exists as a key of the operation-wide dictionary,
initialize the counter to 1 and bind to name ++ "1"; else bind to the base
name unchanged.  A second definition written from the spec's words, to be
compared with getFieldArgsDict, which is written from the source. -/
def specBindStep (globalArgDict : List (String × Arg))
    (acc : List (String × Arg) × List (String × Nat)) (a : Arg) :
    List (String × Arg) × List (String × Nat) :=
  if hasKey acc.2 a.name then
    let newIndex := ((lookupKey acc.2 a.name).getD 0) + 1
    (setKey acc.1 (a.name ++ toString newIndex) a, setKey acc.2 a.name newIndex)
  else if hasKey globalArgDict a.name then
    (setKey acc.1 (a.name ++ "1") a, setKey acc.2 a.name 1)
  else
    (setKey acc.1 a.name a, acc.2)

def StMono (gq : GenCall → Option GenResult) : Prop :=
  ∀ c r, gq c = some r →
    (∃ t, r.st.crossReferenceKeyList = c.st.crossReferenceKeyList ++ t) ∧
    (c.st.crossReferenceKeyList.Nodup → r.st.crossReferenceKeyList.Nodup)

/-- Nothing at or below a union fragment ever records a visited edge: the
push on line 91 is guarded by fromUnion, and line 101 passes fromUnion down
unchanged while lines 131-132 pass true. -/
def NoPush (gq : GenCall → Option GenResult) : Prop :=
  ∀ c r, c.fromUnion = true → gq c = some r →
    r.st.crossReferenceKeyList = c.st.crossReferenceKeyList

/-- Below the root (curDepth at least 2) with excludeNestedArgs set, a call
leaves the argument dictionaries untouched and renders no parenthesis. -/
def NestedFrame (gq : GenCall → Option GenResult) : Prop :=
  ∀ c r, 2 ≤ c.curDepth → gq c = some r →
    r.st.argumentsDict = c.st.argumentsDict ∧
    r.st.duplicateArgCounts = c.st.duplicateArgCounts ∧
    noParen r.queryStr = true

/-! ### Concrete schemas and configurations used by the claims -/

/-- depthLimit 100 (the default), nested arguments included, deprecated
fields excluded. -/
def cfgStd : Config := Config.mk 100 false false

/-- depthLimit 1, nested arguments included, deprecated fields excluded. -/
def cfg1 : Config := Config.mk 1 false false

/-- depthLimit 5, nested arguments included, deprecated fields excluded. -/
def cfg5 : Config := Config.mk 5 false false

/-- depthLimit 5 with excludeNestedArgs = true. -/
def cfgExcl : Config := Config.mk 5 true false

/-- The end-to-end schema of the spec (§8):
type Query ( user(id: Int!): User! )  type User ( id: Int!  username: String! ). -/
def schC9 : Schema := Schema.mk
  [("Query", TypeDef.object [FieldDef.mk "user" "User!" [Arg.mk "id" "Int!"] false]),
   ("User", TypeDef.object [FieldDef.mk "id" "Int!" [] false,
                            FieldDef.mk "username" "String!" [] false]),
   ("Int", TypeDef.scalar), ("String", TypeDef.scalar)]

/-- Two sibling branches x and y of the same shape: both reach the edge
(m, k), which collides in the shared visited-edge list. -/
def schC1 : Schema := Schema.mk
  [("Query", TypeDef.object [FieldDef.mk "r" "A" [] false]),
   ("A", TypeDef.object [FieldDef.mk "x" "B" [] false, FieldDef.mk "y" "B" [] false]),
   ("B", TypeDef.object [FieldDef.mk "m" "M" [] false]),
   ("M", TypeDef.object [FieldDef.mk "k" "K" [] false]),
   ("K", TypeDef.object [FieldDef.mk "s" "String" [] false]),
   ("String", TypeDef.scalar)]

/-- The call with which generateQuery enters the sibling branch x during the
root-field traversal of schC1: at that point the visited-edge list holds
exactly the root edge. -/
def xCall : GenCall :=
  GenCall.mk "x" "A" "r" (GenState.mk [] [] ["undefinedTorKey"]) 2 false

/-- A union cycle: type Query ( start: U )  union U = A  type A ( u: U ).
A legal schema, on which the union branch of generateQuery recurses without
ever consulting the visited-edge list or the depth limit. -/
def schC2 : Schema := Schema.mk
  [("Query", TypeDef.object [FieldDef.mk "start" "U" [] false]),
   ("U", TypeDef.union ["A"]),
   ("A", TypeDef.object [FieldDef.mk "u" "U" [] false])]

/-- Two nested unions: Query ( a: U1 ), U1 = A1, A1 ( b: U2 ), U2 = A2,
A2 ( s: String ). -/
def schC3 : Schema := Schema.mk
  [("Query", TypeDef.object [FieldDef.mk "a" "U1" [] false]),
   ("U1", TypeDef.union ["A1"]),
   ("A1", TypeDef.object [FieldDef.mk "b" "U2" [] false]),
   ("U2", TypeDef.union ["A2"]),
   ("A2", TypeDef.object [FieldDef.mk "s" "String" [] false]),
   ("String", TypeDef.scalar)]

/-- A field f1 whose argument is literally named id1, next to two sibling
fields f2 and f3 both declaring an argument named id. -/
def schC4 : Schema := Schema.mk
  [("Query", TypeDef.object [FieldDef.mk "top" "T" [] false]),
   ("T", TypeDef.object [FieldDef.mk "f1" "String" [Arg.mk "id1" "String!"] false,
                         FieldDef.mk "f2" "String" [Arg.mk "id" "Int!"] false,
                         FieldDef.mk "f3" "String" [Arg.mk "id" "Int!"] false]),
   ("String", TypeDef.scalar)]

/-- A union of two concrete types where only member A has non-empty
expandable content under depthLimit 1 (member B's only field is an object
cut off by the depth limit). -/
def schC6 : Schema := Schema.mk
  [("Query", TypeDef.object [FieldDef.mk "u" "U" [] false]),
   ("U", TypeDef.union ["A", "B"]),
   ("A", TypeDef.object [FieldDef.mk "s" "String" [] false]),
   ("B", TypeDef.object [FieldDef.mk "o" "OB" [] false]),
   ("OB", TypeDef.object [FieldDef.mk "x" "X" [] false]),
   ("X", TypeDef.object [FieldDef.mk "s2" "String" [] false]),
   ("String", TypeDef.scalar)]

/-- An object field u of union type whose every member fragment is empty
under depthLimit 1. -/
def schC7 : Schema := Schema.mk
  [("Query", TypeDef.object [FieldDef.mk "a" "A" [] false]),
   ("A", TypeDef.object [FieldDef.mk "u" "UU" [] false]),
   ("UU", TypeDef.union ["B"]),
   ("B", TypeDef.object [FieldDef.mk "c" "C" [] false]),
   ("C", TypeDef.object [FieldDef.mk "s" "String" [] false]),
   ("String", TypeDef.scalar)]

/-- The self-referencing object type of the spec (§8):
type Query ( a: A )  type A ( self: A  name: String! ). -/
def schSelf : Schema := Schema.mk
  [("Query", TypeDef.object [FieldDef.mk "a" "A" [] false]),
   ("A", TypeDef.object [FieldDef.mk "self" "A" [] false,
                         FieldDef.mk "name" "String!" [] false]),
   ("String", TypeDef.scalar)]

/-- The result of the root-field traversal of schSelf (checked below by a
kernel computation): the self-reference edge selfToselfKey is recorded, and
expanded, exactly once. -/
def selfResult : GenResult := GenResult.mk
  ("    a\x7b\n        self\x7b\n            self\x7b\n                name\n            \x7d\n            name\n        \x7d\n        name\n    \x7d")
  (GenState.mk [] [] ["undefinedToaKey", "aToselfKey", "selfToselfKey"])

/-- Root field with an argument over a nested field that also declares an
argument, for the excludeNestedArgs claim. -/
def schC8 : Schema := Schema.mk
  [("Query", TypeDef.object [FieldDef.mk "top" "T" [Arg.mk "rid" "Int!"] false]),
   ("T", TypeDef.object [FieldDef.mk "sub" "S" [Arg.mk "x" "Int!"] false]),
   ("S", TypeDef.object [FieldDef.mk "leaf" "String" [] false]),
   ("String", TypeDef.scalar), ("Int", TypeDef.scalar)]

/-- The call with which generateQuery enters the descendant field sub
(depth 2) during the root traversal of schC8 (the root field's own
arguments are bound after the children run, so the dictionaries are still
empty here). -/
def c8SubCall : GenCall :=
  GenCall.mk "sub" "T" "top" (GenState.mk [] [] ["undefinedTotopKey"]) 2 false

/-- The result of that descendant call (checked below by a kernel
computation): no parenthesized argument list, dictionaries untouched. -/
def c8SubResult : GenResult := GenResult.mk
  ("        sub\x7b\n            leaf\n        \x7d")
  (GenState.mk [] [] ["undefinedTotopKey", "topTosubKey"])

/-- The result of the root-field traversal of schC6 (checked below by a
kernel computation). -/
def c6Result : GenResult := GenResult.mk
  ("    u\x7b\n        ... on A \x7b\n            s\n        \x7d\n    \x7d")
  (GenState.mk [] [] [])

/-! ## Theorems -/

/-- C9: for the schema `type Query (user(id: Int!): User!)`,
`type User (id: Int!, username: String!)` with depthLimit 5, generation
produces the operation signature line `query user($id: Int!)` followed by an
opening brace, and the body `    user(id: $id)` with the children `id` and
`username` indented four spaces per level and closed by matching braces. -/
theorem C9_endToEnd :
    generateDocument schC9 cfg5 "Query" "user" 10 =
      some ("query user($id: Int!)\x7b\n    user(id: $id)\x7b\n        id\n        username\n    \x7d\n\x7d") := by
  rfl

/-- C4: the variable names bound within one operation are NOT unique.  In
schC4 the literal argument name id1 of f1 coexists with a deduplicated base
name id: f3's argument id is bound to the generated name id1, which is
already the variable of f1's literal argument.  The rendered document
references $id1 at both the f1 and the f3 call sites, and the final
argumentsDict holds only two entries for three declared arguments — f1's
binding (of declared type String!) was overwritten by f3's (Int!). -/
theorem C4_variableCollision :
    generateDocument schC4 cfg5 "Query" "top" 10 =
      some ("query top($id1: Int!, $id: Int!)\x7b\n    top\x7b\n        f1(id1: $id1)\n        f2(id: $id)\n        f3(id: $id1)\n    \x7d\n\x7d")
    ∧ ((generateQuery schC4 cfg5 10 (rootCall "Query" "top")).map fun r =>
        r.st.argumentsDict) =
      some [("id1", Arg.mk "id" "Int!"), ("id", Arg.mk "id" "Int!")] :=
  ⟨by rfl, by rfl⟩

/-- C7: a union-typed field whose every member fragment is empty is NOT
omitted: it is rendered as the field name followed by an empty brace pair.
In schC7 with depthLimit 1 the member B's only field c is an object cut off
by the depth check, so u's single fragment is empty, yet the output
contains `u` followed by braces that enclose nothing. -/
theorem C7_emptyUnionBraces :
    ((generateQuery schC7 cfg1 30 (rootCall "Query" "a")).map fun r => r.queryStr) =
      some ("    a\x7b\n        u\x7b\n        \x7d\n    \x7d") := by
  rfl

set_option maxRecDepth 40000 in
/-- C3: the depth limit does not bound the emitted brace nesting, even
granting the +2 union adjustment.  Union-typed fields are expanded by
lines 119-143 of index.js without any depth or visited-edge check, so in
schC3 (two nested unions) with depthLimit 1 the emitted braces nest to
depth 4, which exceeds depthLimit + 2. -/
theorem C3_depthLimitEscape :
    ((generateQuery schC3 cfg1 30 (rootCall "Query" "a")).map fun r =>
        braceDepth r.queryStr) = some 4
    ∧ cfg1.depthLimit = 1
    ∧ decide ((cfg1.depthLimit : Int) + 2 < 4) = true :=
  ⟨by decide, by rfl, by rfl⟩

/-- C1: the visited-edge state is NOT path-scoped.  Entering the sibling
branch x of schC1 with the visited list holding only the root edge, the
completed branch hands the next sibling a strictly larger list (the edges
recorded inside x persist), and in the root output the whole sibling branch
y is missing: its inner edge (m, k) was suppressed by the mTokKey recorded
inside the completed, unrelated branch x. -/
theorem C1_counterexample :
    ((generateQuery schC1 cfgStd 30 xCall).map fun r => r.st.crossReferenceKeyList) =
      some ["undefinedTorKey", "rToxKey", "xTomKey", "mTokKey"]
    ∧ xCall.st.crossReferenceKeyList = ["undefinedTorKey"]
    ∧ ((generateQuery schC1 cfgStd 30 (rootCall "Query" "r")).map fun r => r.queryStr) =
      some ("    r\x7b\n        x\x7b\n            m\x7b\n                k\x7b\n                    s\n                \x7d\n            \x7d\n        \x7d\n    \x7d") :=
  ⟨by rfl, by rfl, by rfl⟩

/-- argStep (written from lines 28-41 of the source) computes exactly the
three-case rule the spec states for the Binder. -/
theorem argStep_eq_specBindStep (all : List (String × Arg))
    (acc : List (String × Arg) × List (String × Nat)) (a : Arg) :
    argStep all acc a = specBindStep all acc a := by
  unfold argStep specBindStep hasKey lookupKey
  cases h : acc.2.find? fun p => p.1 = a.name with
  | none => simp [h]
  | some p => simp [h]

/-- C5: getFieldArgsDict binds each argument of a field, in declaration
order, by exactly the spec's three-case rule: a left fold of specBindStep
over field.args starting from an empty per-field table and the incoming
duplicate counter. -/
theorem C5_bindRule (field : FieldDef) (dup : List (String × Nat))
    (all : List (String × Arg)) :
    getFieldArgsDict field dup all = field.args.foldl (specBindStep all) ([], dup) := by
  unfold getFieldArgsDict
  congr 1
  funext acc a
  exact argStep_eq_specBindStep all acc a

/-! ### C2: the union cycle of schC2 exhausts any amount of fuel -/

theorem getA_eq : Schema.getType schC2 "A" =
    some (TypeDef.object [FieldDef.mk "u" "U" [] false]) := by rfl

theorem fieldsC2_none (gq : GenCall → Option GenResult) (pname : String)
    (st : GenState) (d : Nat)
    (hgq : gq (GenCall.mk "u" "A" pname st (d + 2) true) = none) :
    genFieldsAux gq ["u"] "A" pname st (d + 2) true = none := by
  unfold genFieldsAux
  rw [hgq]

theorem unionC2_none (gq : GenCall → Option GenResult) (pname : String)
    (st : GenState) (d : Nat)
    (hgq : gq (GenCall.mk "u" "A" pname st (d + 2) true) = none) :
    genUnionAux schC2 gq ["A"] pname st d = none := by
  have h1 := fieldsC2_none gq pname st d hgq
  unfold genUnionAux
  rw [getA_eq]
  simp only [TypeDef.fieldsOf, List.map]
  rw [h1]

theorem bodyC2u_eq (gq : GenCall → Option GenResult) (p : String) (st : GenState)
    (d : Nat) (f : Bool) :
    generateQueryBody schC2 cfgStd gq (GenCall.mk "u" "A" p st d f) =
      match genUnionAux schC2 gq ["A"] "u" st d with
      | none => none
      | some (frags, st3) =>
        some (GenResult.mk (indent d ++ "u" ++ "\x7b\n" ++ frags ++ indent d ++ "\x7d") st3) := by
  rfl

theorem bodyC2start_eq (gq : GenCall → Option GenResult) :
    generateQueryBody schC2 cfgStd gq (rootCall "Query" "start") =
      match genUnionAux schC2 gq ["A"] "start" (GenState.mk [] [] []) 1 with
      | none => none
      | some (frags, st3) =>
        some (GenResult.mk (indent 1 ++ "start" ++ "\x7b\n" ++ frags ++ indent 1 ++ "\x7d") st3) := by
  rfl

/-- On the field u of A (whose type is the union U with single member A),
the recursion consumes a fuel level and re-enters the very same field at
curDepth + 2, whatever the fuel: the call never returns a value. -/
theorem genC2u_none : ∀ fuel p st d f,
    generateQuery schC2 cfgStd fuel (GenCall.mk "u" "A" p st d f) = none := by
  intro fuel
  induction fuel with
  | zero => intro p st d f; rfl
  | succ fuel ih =>
    intro p st d f
    show generateQueryBody schC2 cfgStd (generateQuery schC2 cfgStd fuel)
        (GenCall.mk "u" "A" p st d f) = none
    rw [bodyC2u_eq, unionC2_none _ _ _ _ (ih "u" st (d + 2) true)]

/-- C2: generateQuery does not terminate on every schema.  On the legal
schema `type Query (start: U)`, `union U = A`, `type A (u: U)` the union
branch (lines 119-143 of index.js) recurses without ever consulting the
visited-edge list or the depth limit: the root-field traversal exhausts
every amount of fuel, i.e. the JavaScript original recurses forever. -/
theorem C2_divergesOnUnionCycle :
    ∀ n, generateQuery schC2 cfgStd n (rootCall "Query" "start") = none := by
  intro n
  cases n with
  | zero => rfl
  | succ fuel =>
    show generateQueryBody schC2 cfgStd (generateQuery schC2 cfgStd fuel)
        (rootCall "Query" "start") = none
    rw [bodyC2start_eq,
      unionC2_none _ _ _ _ (genC2u_none fuel "start" (GenState.mk [] [] []) 3 true)]

/-! ### C1 (amended) and C10: the visited-edge list is append-only and
duplicate-free across one whole root-field traversal -/

theorem renderField_crossRefs (cfg : Config) (field : FieldDef) (c : GenCall)
    (q : String) (st : GenState) :
    (renderField cfg field c q st).2.crossReferenceKeyList =
      st.crossReferenceKeyList := by
  unfold renderField
  by_cases hc : (decide (field.args.length ≠ 0) &&
      (decide (c.curDepth ≤ 1) || !cfg.excludeNestedArgs)) = true
  · rw [if_pos hc]
    rcases hg : getFieldArgsDict field st.duplicateArgCounts st.argumentsDict with ⟨dict, dup'⟩
    by_cases hq : q = "" <;> simp [hq]
  · rw [if_neg hc]
    by_cases hq : q = "" <;> simp [hq]

theorem nodupAppendSingleton {α : Type} {l : List α} {k : α}
    (h : l.Nodup) (hk : k ∉ l) : (l ++ [k]).Nodup := by
  simp [List.nodup_append, h, hk]

theorem genFieldsAux_mono (gq : GenCall → Option GenResult) (hgq : StMono gq) :
    ∀ ns pty pname st d fu res,
      genFieldsAux gq ns pty pname st d fu = some res →
      (∃ t, res.2.crossReferenceKeyList = st.crossReferenceKeyList ++ t) ∧
      (st.crossReferenceKeyList.Nodup → res.2.crossReferenceKeyList.Nodup) := by
  intro ns
  induction ns with
  | nil =>
    intro pty pname st d fu res h
    unfold genFieldsAux at h
    injection h with h
    subst h
    exact ⟨⟨[], (List.append_nil _).symm⟩, fun hn => hn⟩
  | cons n ns ih =>
    intro pty pname st d fu res h
    unfold genFieldsAux at h
    cases hg : gq (GenCall.mk n pty pname st d fu) with
    | none => rw [hg] at h; simp at h
    | some r =>
      obtain ⟨q, rst⟩ := r
      simp only [hg] at h
      cases hrest : genFieldsAux gq ns pty pname rst d fu with
      | none => simp only [hrest] at h; exact Option.noConfusion h
      | some res2 =>
        obtain ⟨rest, st2⟩ := res2
        simp only [hrest] at h
        injection h with h
        subst h
        obtain ⟨⟨t1, e1⟩, n1⟩ := hgq (GenCall.mk n pty pname st d fu) (GenResult.mk q rst) hg
        obtain ⟨⟨t2, e2⟩, n2⟩ := ih pty pname rst d fu (rest, st2) hrest
        have e1' : rst.crossReferenceKeyList = st.crossReferenceKeyList ++ t1 := e1
        have e2' : st2.crossReferenceKeyList = rst.crossReferenceKeyList ++ t2 := e2
        refine ⟨⟨t1 ++ t2, ?_⟩, fun hn => n2 (n1 hn)⟩
        rw [e2', e1', List.append_assoc]


theorem genUnionAux_mono (sch : Schema) (gq : GenCall → Option GenResult)
    (hgq : StMono gq) :
    ∀ ms curName st d res, genUnionAux sch gq ms curName st d = some res →
      (∃ t, res.2.crossReferenceKeyList = st.crossReferenceKeyList ++ t) ∧
      (st.crossReferenceKeyList.Nodup → res.2.crossReferenceKeyList.Nodup) := by
  intro ms
  induction ms with
  | nil =>
    intro curName st d res h
    unfold genUnionAux at h
    injection h with h
    subst h
    exact ⟨⟨[], (List.append_nil _).symm⟩, fun hn => hn⟩
  | cons m ms ih =>
    intro curName st d res h
    unfold genUnionAux at h
    cases hgt : sch.getType m with
    | none => simp only [hgt] at h; exact Option.noConfusion h
    | some mty =>
      simp only [hgt] at h
      cases hfs : mty.fieldsOf with
      | none => simp only [hfs] at h; exact Option.noConfusion h
      | some mfields =>
        simp only [hfs] at h
        cases hgf : genFieldsAux gq (mfields.map fun f => f.name) m curName st (d + 2) true with
        | none => simp only [hgf] at h; exact Option.noConfusion h
        | some res1 =>
          obtain ⟨parts, st1⟩ := res1
          simp only [hgf] at h
          cases hgu : genUnionAux sch gq ms curName st1 d with
          | none => simp only [hgu] at h; exact Option.noConfusion h
          | some res2 =>
            obtain ⟨rest, st2⟩ := res2
            simp only [hgu] at h
            injection h with h
            subst h
            obtain ⟨⟨t1, e1⟩, n1⟩ := genFieldsAux_mono gq hgq _ m curName st (d + 2) true (parts, st1) hgf
            obtain ⟨⟨t2, e2⟩, n2⟩ := ih curName st1 d (rest, st2) hgu
            have e1' : st1.crossReferenceKeyList = st.crossReferenceKeyList ++ t1 := e1
            have e2' : st2.crossReferenceKeyList = st1.crossReferenceKeyList ++ t2 := e2
            refine ⟨⟨t1 ++ t2, ?_⟩, fun hn => n2 (n1 hn)⟩
            rw [e2', e1', List.append_assoc]

theorem generateQueryBody_mono (sch : Schema) (cfg : Config)
    (gq : GenCall → Option GenResult) (hgq : StMono gq) :
    StMono (generateQueryBody sch cfg gq) := by
  intro c r h
  unfold generateQueryBody at h
  split at h
  · exact Option.noConfusion h
  · rename_i field hlf
    split at h
    · exact Option.noConfusion h
    · rename_i curType hgt
      split at h
      -- object type
      · rename_i curFields
        simp only [] at h
        split at h
        -- fromUnion = true
        · rename_i hfu
          split at h
          · rename_i hcut
            injection h with h
            subst h
            exact ⟨⟨[], (List.append_nil _).symm⟩, fun hn => hn⟩
          · rename_i hcut
            split at h
            · exact Option.noConfusion h
            · rename_i parts st1 hgf
              obtain ⟨⟨t1, e1⟩, n1⟩ := genFieldsAux_mono gq hgq _ _ _ _ _ _ _ hgf
              have e1' : st1.crossReferenceKeyList = c.st.crossReferenceKeyList ++ t1 := e1
              have n1' : c.st.crossReferenceKeyList.Nodup → st1.crossReferenceKeyList.Nodup := n1
              split at h
              · rename_i hq
                injection h with h
                subst h
                exact ⟨⟨t1, e1'⟩, n1'⟩
              · rename_i hq
                injection h with h
                subst h
                have hrc' : (renderField cfg field c (joinNonempty parts) st1).2.crossReferenceKeyList
                    = st1.crossReferenceKeyList :=
                  renderField_crossRefs cfg field c (joinNonempty parts) st1
                refine ⟨⟨t1, ?_⟩, fun hn => ?_⟩
                · show (renderField cfg field c (joinNonempty parts) st1).2.crossReferenceKeyList = _
                  rw [hrc', e1']
                · show (renderField cfg field c (joinNonempty parts) st1).2.crossReferenceKeyList.Nodup
                  rw [hrc']
                  exact n1' hn
        -- fromUnion = false
        · rename_i hfu
          split at h
          · rename_i hcut
            injection h with h
            subst h
            exact ⟨⟨[], (List.append_nil _).symm⟩, fun hn => hn⟩
          · rename_i hcut
            have hmem : (c.curParentName ++ "To" ++ c.curName ++ "Key") ∉
                c.st.crossReferenceKeyList := by
              intro hm
              apply hcut
              rw [Bool.or_eq_true]
              left
              simpa using hm
            split at h
            · exact Option.noConfusion h
            · rename_i parts st1 hgf
              obtain ⟨⟨t1, e1⟩, n1⟩ := genFieldsAux_mono gq hgq _ _ _ _ _ _ _ hgf
              have e1' : st1.crossReferenceKeyList =
                  (c.st.crossReferenceKeyList ++ [c.curParentName ++ "To" ++ c.curName ++ "Key"]) ++ t1 := e1
              have n1' : (c.st.crossReferenceKeyList ++
                  [c.curParentName ++ "To" ++ c.curName ++ "Key"]).Nodup →
                  st1.crossReferenceKeyList.Nodup := n1
              have epre : st1.crossReferenceKeyList = c.st.crossReferenceKeyList ++
                  ([c.curParentName ++ "To" ++ c.curName ++ "Key"] ++ t1) := by
                rw [e1', List.append_assoc]
              have npre : c.st.crossReferenceKeyList.Nodup →
                  st1.crossReferenceKeyList.Nodup := fun hn =>
                n1' (nodupAppendSingleton hn hmem)
              split at h
              · rename_i hq
                injection h with h
                subst h
                exact ⟨⟨[c.curParentName ++ "To" ++ c.curName ++ "Key"] ++ t1, epre⟩, npre⟩
              · rename_i hq
                injection h with h
                subst h
                have hrc' : (renderField cfg field c (joinNonempty parts) st1).2.crossReferenceKeyList
                    = st1.crossReferenceKeyList :=
                  renderField_crossRefs cfg field c (joinNonempty parts) st1
                refine ⟨⟨[c.curParentName ++ "To" ++ c.curName ++ "Key"] ++ t1, ?_⟩, fun hn => ?_⟩
                · show (renderField cfg field c (joinNonempty parts) st1).2.crossReferenceKeyList = _
                  rw [hrc']; exact epre
                · show (renderField cfg field c (joinNonempty parts) st1).2.crossReferenceKeyList.Nodup
                  rw [hrc']
                  exact npre hn
      -- scalar type
      · injection h with h
        subst h
        have hrc' : (renderField cfg field c "" c.st).2.crossReferenceKeyList
            = c.st.crossReferenceKeyList := renderField_crossRefs cfg field c "" c.st
        refine ⟨⟨[], ?_⟩, fun hn => ?_⟩
        · show (renderField cfg field c "" c.st).2.crossReferenceKeyList = _
          rw [hrc', List.append_nil]
        · show (renderField cfg field c "" c.st).2.crossReferenceKeyList.Nodup
          rw [hrc']
          exact hn
      -- union type
      · rename_i members
        split at h
        rename_i q2 st2 hrf
        have hrc := renderField_crossRefs cfg field c "" c.st
        rw [hrf] at hrc
        have hrc' : st2.crossReferenceKeyList = c.st.crossReferenceKeyList := hrc
        split at h
        · rename_i hme
          injection h with h
          subst h
          refine ⟨⟨[], ?_⟩, fun hn => ?_⟩
          · show st2.crossReferenceKeyList = _
            rw [hrc', List.append_nil]
          · show st2.crossReferenceKeyList.Nodup
            rw [hrc']
            exact hn
        · rename_i hme
          split at h
          · exact Option.noConfusion h
          · rename_i frags st3 hgu
            injection h with h
            subst h
            obtain ⟨⟨t2, e2⟩, n2⟩ := genUnionAux_mono sch gq hgq members c.curName st2
              c.curDepth (frags, st3) hgu
            have e2' : st3.crossReferenceKeyList = st2.crossReferenceKeyList ++ t2 := e2
            have n2' : st2.crossReferenceKeyList.Nodup →
                st3.crossReferenceKeyList.Nodup := n2
            refine ⟨⟨t2, ?_⟩, fun hn => ?_⟩
            · show st3.crossReferenceKeyList = _
              rw [e2', hrc']
            · exact n2' (by rw [hrc']; exact hn)

theorem generateQuery_mono (sch : Schema) (cfg : Config) :
    ∀ fuel, StMono (generateQuery sch cfg fuel) := by
  intro fuel
  induction fuel with
  | zero => intro c r h; exact Option.noConfusion h
  | succ fuel ih => exact fun c r h => generateQueryBody_mono sch cfg _ ih c r h

/-- C1 (amended): the visited-edge state is shared across the whole
root-field traversal, not path-scoped: every generateQuery call hands its
caller a crossReferenceKeyList that extends the one it received by
appending (nothing is ever removed when a sibling branch completes), so an
edge recorded inside a completed sibling branch stays visible, and
suppresses the same (parentName, fieldName) edge, in every later branch. -/
theorem C1_visitedShared (sch : Schema) (cfg : Config) (fuel : Nat) (c : GenCall)
    (r : GenResult) (h : generateQuery sch cfg fuel c = some r) :
    ∃ t, r.st.crossReferenceKeyList = c.st.crossReferenceKeyList ++ t :=
  (generateQuery_mono sch cfg fuel c r h).1

theorem C1_visitedShared_witness :
    ∃ t, selfResult.st.crossReferenceKeyList =
      (rootCall "Query" "a").st.crossReferenceKeyList ++ t :=
  C1_visitedShared schSelf cfgStd 20 (rootCall "Query" "a") selfResult (by rfl)

/-- C10: within one root-field traversal, edge keys are only ever appended
to the visited list (the input list is a prefix of the returned one) and
the list never acquires a duplicate.  A key is pushed exactly when its
(parentName, fieldName) edge is expanded outside a union fragment (line 91
of index.js), and a key already present makes the expansion return early
(line 89), so each such edge is expanded at most once in the entire
generated document, even across unrelated branches. -/
theorem C10_visitedAppendOnly (sch : Schema) (cfg : Config) (fuel : Nat)
    (c : GenCall) (r : GenResult) (h : generateQuery sch cfg fuel c = some r) :
    (∃ t, r.st.crossReferenceKeyList = c.st.crossReferenceKeyList ++ t) ∧
    (c.st.crossReferenceKeyList.Nodup → r.st.crossReferenceKeyList.Nodup) :=
  generateQuery_mono sch cfg fuel c r h

theorem C10_visitedAppendOnly_witness :
    (∃ t, c8SubResult.st.crossReferenceKeyList =
      c8SubCall.st.crossReferenceKeyList ++ t) ∧
    (c8SubCall.st.crossReferenceKeyList.Nodup →
      c8SubResult.st.crossReferenceKeyList.Nodup) :=
  C10_visitedAppendOnly schC8 cfgExcl 10 c8SubCall c8SubResult (by rfl)

/-! ### C6: union handling -/

theorem strEmptyAppend (s : String) : "" ++ s = s := by
  cases s
  rfl

theorem genFieldsAux_noPush (gq : GenCall → Option GenResult) (hgq : NoPush gq) :
    ∀ ns pty pname st d res,
      genFieldsAux gq ns pty pname st d true = some res →
      res.2.crossReferenceKeyList = st.crossReferenceKeyList := by
  intro ns
  induction ns with
  | nil =>
    intro pty pname st d res h
    unfold genFieldsAux at h
    injection h with h
    subst h
    rfl
  | cons n ns ih =>
    intro pty pname st d res h
    unfold genFieldsAux at h
    cases hg : gq (GenCall.mk n pty pname st d true) with
    | none => rw [hg] at h; simp at h
    | some r =>
      obtain ⟨q, rst⟩ := r
      simp only [hg] at h
      cases hrest : genFieldsAux gq ns pty pname rst d true with
      | none => simp only [hrest] at h; exact Option.noConfusion h
      | some res2 =>
        obtain ⟨rest, st2⟩ := res2
        simp only [hrest] at h
        injection h with h
        subst h
        have e1 : rst.crossReferenceKeyList = st.crossReferenceKeyList :=
          hgq (GenCall.mk n pty pname st d true) (GenResult.mk q rst) rfl hg
        have e2 : st2.crossReferenceKeyList = rst.crossReferenceKeyList :=
          ih pty pname rst d (rest, st2) hrest
        show st2.crossReferenceKeyList = st.crossReferenceKeyList
        rw [e2, e1]

theorem genUnionAux_noPush (sch : Schema) (gq : GenCall → Option GenResult)
    (hgq : NoPush gq) :
    ∀ ms curName st d res, genUnionAux sch gq ms curName st d = some res →
      res.2.crossReferenceKeyList = st.crossReferenceKeyList := by
  intro ms
  induction ms with
  | nil =>
    intro curName st d res h
    unfold genUnionAux at h
    injection h with h
    subst h
    rfl
  | cons m ms ih =>
    intro curName st d res h
    unfold genUnionAux at h
    cases hgt : sch.getType m with
    | none => simp only [hgt] at h; exact Option.noConfusion h
    | some mty =>
      simp only [hgt] at h
      cases hfs : mty.fieldsOf with
      | none => simp only [hfs] at h; exact Option.noConfusion h
      | some mfields =>
        simp only [hfs] at h
        cases hgf : genFieldsAux gq (mfields.map fun f => f.name) m curName st (d + 2) true with
        | none => simp only [hgf] at h; exact Option.noConfusion h
        | some res1 =>
          obtain ⟨parts, st1⟩ := res1
          simp only [hgf] at h
          cases hgu : genUnionAux sch gq ms curName st1 d with
          | none => simp only [hgu] at h; exact Option.noConfusion h
          | some res2 =>
            obtain ⟨rest, st2⟩ := res2
            simp only [hgu] at h
            injection h with h
            subst h
            have e1 : st1.crossReferenceKeyList = st.crossReferenceKeyList :=
              genFieldsAux_noPush gq hgq _ m curName st (d + 2) (parts, st1) hgf
            have e2 : st2.crossReferenceKeyList = st1.crossReferenceKeyList :=
              ih curName st1 d (rest, st2) hgu
            show st2.crossReferenceKeyList = st.crossReferenceKeyList
            rw [e2, e1]

theorem generateQueryBody_noPush (sch : Schema) (cfg : Config)
    (gq : GenCall → Option GenResult) (hgq : NoPush gq) :
    NoPush (generateQueryBody sch cfg gq) := by
  intro c r hfc h
  unfold generateQueryBody at h
  split at h
  · exact Option.noConfusion h
  · rename_i field hlf
    split at h
    · exact Option.noConfusion h
    · rename_i curType hgt
      split at h
      -- object type
      · rename_i curFields
        simp only [] at h
        split at h
        -- fromUnion = true branch of the refs/depth if
        · rename_i hfu
          split at h
          · rename_i hcut
            injection h with h
            subst h
            rfl
          · rename_i hcut
            split at h
            · exact Option.noConfusion h
            · rename_i parts st1 hgf
              rw [hfc] at hgf
              have e1 : st1.crossReferenceKeyList = c.st.crossReferenceKeyList :=
                genFieldsAux_noPush gq hgq _ _ _ _ _ (parts, st1) hgf
              split at h
              · rename_i hq
                injection h with h
                subst h
                exact e1
              · rename_i hq
                injection h with h
                subst h
                have hrc' : (renderField cfg field c (joinNonempty parts) st1).2.crossReferenceKeyList
                    = st1.crossReferenceKeyList :=
                  renderField_crossRefs cfg field c (joinNonempty parts) st1
                show (renderField cfg field c (joinNonempty parts) st1).2.crossReferenceKeyList = _
                rw [hrc', e1]
        · rename_i hfu
          exact absurd hfc hfu
      -- scalar type
      · injection h with h
        subst h
        exact renderField_crossRefs cfg field c "" c.st
      -- union type
      · rename_i members
        split at h
        rename_i q2 st2 hrf
        have hrc := renderField_crossRefs cfg field c "" c.st
        rw [hrf] at hrc
        have hrc' : st2.crossReferenceKeyList = c.st.crossReferenceKeyList := hrc
        split at h
        · rename_i hme
          injection h with h
          subst h
          exact hrc'
        · rename_i hme
          split at h
          · exact Option.noConfusion h
          · rename_i frags st3 hgu
            injection h with h
            subst h
            have e2 : st3.crossReferenceKeyList = st2.crossReferenceKeyList :=
              genUnionAux_noPush sch gq hgq members c.curName st2 c.curDepth (frags, st3) hgu
            show st3.crossReferenceKeyList = _
            rw [e2, hrc']

theorem generateQuery_noPush (sch : Schema) (cfg : Config) :
    ∀ fuel, NoPush (generateQuery sch cfg fuel) := by
  intro fuel
  induction fuel with
  | zero => intro c r hfc h; exact Option.noConfusion h
  | succ fuel ih => exact fun c r hfc h => generateQueryBody_noPush sch cfg _ ih c r hfc h


theorem unionTarget_refs (sch : Schema) (cfg : Config) (fuel : Nat) (c : GenCall)
    (r : GenResult) (field : FieldDef) (ms : List String)
    (hlf : lookupField sch c.curParentType c.curName = some field)
    (hgt : sch.getType (stripWrappers field.typeStr) = some (TypeDef.union ms))
    (h : generateQuery sch cfg fuel c = some r) :
    r.st.crossReferenceKeyList = c.st.crossReferenceKeyList := by
  cases fuel with
  | zero => exact Option.noConfusion h
  | succ fuel =>
    replace h : generateQueryBody sch cfg (generateQuery sch cfg fuel) c = some r := h
    unfold generateQueryBody at h
    split at h
    · exact Option.noConfusion h
    · rename_i field2 hlf2
      rw [hlf] at hlf2
      injection hlf2 with e
      subst e
      split at h
      · rename_i hgt2
        rw [hgt] at hgt2
        exact Option.noConfusion hgt2
      · rename_i curType2 hgt2
        rw [hgt] at hgt2
        injection hgt2 with e
        subst e
        split at h
        · rename_i curFields heq
          exact TypeDef.noConfusion heq
        · rename_i heq
          exact TypeDef.noConfusion heq
        · rename_i members2 heq
          injection heq with e
          subst e
          split at h
          rename_i q2 st2 hrf
          have hrc := renderField_crossRefs cfg field c "" c.st
          rw [hrf] at hrc
          have hrc' : st2.crossReferenceKeyList = c.st.crossReferenceKeyList := hrc
          split at h
          · rename_i hme
            injection h with h
            subst h
            exact hrc'
          · rename_i hme
            split at h
            · exact Option.noConfusion h
            · rename_i frags st3 hgu
              injection h with h
              subst h
              have e2 : st3.crossReferenceKeyList = st2.crossReferenceKeyList :=
                genUnionAux_noPush sch (generateQuery sch cfg fuel)
                  (generateQuery_noPush sch cfg fuel) ms c.curName st2
                  c.curDepth (frags, st3) hgu
              show st3.crossReferenceKeyList = _
              rw [e2, hrc']

theorem genUnionAux_skipEmpty (sch : Schema) (gq : GenCall → Option GenResult)
    (m : String) (ms : List String) (curName : String) (st : GenState) (d : Nat)
    (mty : TypeDef) (mfs : List FieldDef) (parts : List String) (st1 : GenState)
    (h1 : sch.getType m = some mty) (h2 : mty.fieldsOf = some mfs)
    (h3 : genFieldsAux gq (mfs.map fun f => f.name) m curName st (d + 2) true =
      some (parts, st1))
    (h4 : joinNonempty parts = "") :
    genUnionAux sch gq (m :: ms) curName st d = genUnionAux sch gq ms curName st1 d := by
  cases hx : genUnionAux sch gq ms curName st1 d with
  | none => simp only [genUnionAux, h1, h2, h3, h4, hx]
  | some res2 =>
    obtain ⟨rest, st2⟩ := res2
    simp only [genUnionAux, h1, h2, h3, h4, hx, if_pos]
    rw [strEmptyAppend]

/-- C6: when a field resolves to a union type, each concrete member type is
expanded at curDepth + 2 with fromUnion = true (visible in the statement of
the second conjunct: the member expansion is the genFieldsAux run over the
member's fields at d + 2 with fromUnion true), the parent edge is not
recorded (first conjunct: the traversal of a union-typed field returns the
visited-edge list unchanged), a member whose expansion is empty contributes
no fragment at all (second conjunct: the member is skipped entirely), and
for the union schC6 of two concrete types where only member A has non-empty
expandable content, the rendered selection contains exactly one
`... on` fragment (third conjunct). -/
theorem C6_unionHandling :
    (∀ (sch : Schema) (cfg : Config) (fuel : Nat) (c : GenCall) (r : GenResult)
        (field : FieldDef) (ms : List String),
      lookupField sch c.curParentType c.curName = some field →
      sch.getType (stripWrappers field.typeStr) = some (TypeDef.union ms) →
      generateQuery sch cfg fuel c = some r →
      r.st.crossReferenceKeyList = c.st.crossReferenceKeyList) ∧
    (∀ (sch : Schema) (gq : GenCall → Option GenResult) (m : String)
        (ms : List String) (curName : String) (st : GenState) (d : Nat)
        (mty : TypeDef) (mfs : List FieldDef) (parts : List String) (st1 : GenState),
      sch.getType m = some mty → mty.fieldsOf = some mfs →
      genFieldsAux gq (mfs.map fun f => f.name) m curName st (d + 2) true =
        some (parts, st1) →
      joinNonempty parts = "" →
      genUnionAux sch gq (m :: ms) curName st d =
        genUnionAux sch gq ms curName st1 d) ∧
    ((generateQuery schC6 cfg1 30 (rootCall "Query" "u")).map fun r => r.queryStr) =
      some "    u\x7b\n        ... on A \x7b\n            s\n        \x7d\n    \x7d" :=
  ⟨fun sch cfg fuel c r field ms h1 h2 h3 =>
      unionTarget_refs sch cfg fuel c r field ms h1 h2 h3,
   fun sch gq m ms curName st d mty mfs parts st1 h1 h2 h3 h4 =>
      genUnionAux_skipEmpty sch gq m ms curName st d mty mfs parts st1 h1 h2 h3 h4,
   by rfl⟩

theorem C6_unionHandling_witness :
    c6Result.st.crossReferenceKeyList =
      (rootCall "Query" "u").st.crossReferenceKeyList :=
  C6_unionHandling.1 schC6 cfg1 30 (rootCall "Query" "u") c6Result
    (FieldDef.mk "u" "U" [] false) ["A", "B"] (by rfl) (by rfl) (by rfl)

/-! ### C8: excludeNestedArgs suppresses every descendant argument list -/

theorem noParen_append (a b : String) :
    noParen (a ++ b) = (noParen a && noParen b) := by
  unfold noParen
  rw [String.data_append, List.all_append]

theorem noParen_indent : ∀ n, noParen (indent n) = true := by
  intro n
  induction n with
  | zero => rfl
  | succ n ih =>
    show noParen ("    " ++ indent n) = true
    rw [noParen_append, ih]
    rfl

theorem noParen_joinParts : ∀ (l : List String),
    (∀ s ∈ l, noParen s = true) → noParen (joinParts l) = true := by
  intro l
  induction l with
  | nil => intro h; rfl
  | cons s rest ih =>
    intro h
    cases rest with
    | nil => exact h s (List.mem_singleton.mpr rfl)
    | cons s2 rest2 =>
      show noParen (s ++ "\n" ++ joinParts (s2 :: rest2)) = true
      rw [noParen_append, noParen_append]
      have h1 : noParen s = true := h s (List.mem_cons_self s _)
      have h2 : noParen (joinParts (s2 :: rest2)) = true :=
        ih fun x hx => h x (List.mem_cons_of_mem s hx)
      rw [h1, h2]
      rfl

theorem noParen_joinNonempty (parts : List String)
    (h : ∀ s ∈ parts, noParen s = true) : noParen (joinNonempty parts) = true :=
  noParen_joinParts _ fun s hs => h s (List.mem_of_mem_filter hs)

theorem getType_mem (sch : Schema) (n : String) (td : TypeDef)
    (h : sch.getType n = some td) : (n, td) ∈ sch.types := by
  unfold Schema.getType at h
  cases hf : sch.types.find? fun p => p.1 = n with
  | none => rw [hf] at h; exact Option.noConfusion h
  | some p =>
    rw [hf] at h
    injection h with h
    have hm := List.mem_of_find?_eq_some hf
    have hp := List.find?_some hf
    obtain ⟨p1, p2⟩ := p
    simp only [decide_eq_true_eq] at hp
    subst hp
    subst h
    exact hm

theorem lookupField_noParen (sch : Schema) (t n : String) (f : FieldDef)
    (hp : parenFreeSchema sch = true) (h : lookupField sch t n = some f) :
    noParen f.name = true := by
  unfold lookupField at h
  cases hg : sch.getType t with
  | none => rw [hg] at h; exact Option.noConfusion h
  | some td =>
    rw [hg] at h
    cases td with
    | scalar => exact Option.noConfusion h
    | union ms => exact Option.noConfusion h
    | object fs =>
      have hmem := getType_mem sch t (TypeDef.object fs) hg
      have hf : f ∈ fs := List.mem_of_find?_eq_some h
      unfold parenFreeSchema at hp
      rw [List.all_eq_true] at hp
      have := hp (t, TypeDef.object fs) hmem
      simp only [] at this
      rw [List.all_eq_true] at this
      exact this f hf

theorem unionMember_noParen (sch : Schema) (t : String) (ms : List String)
    (m : String) (hp : parenFreeSchema sch = true)
    (h : sch.getType t = some (TypeDef.union ms)) (hm : m ∈ ms) :
    noParen m = true := by
  have hmem := getType_mem sch t (TypeDef.union ms) h
  unfold parenFreeSchema at hp
  rw [List.all_eq_true] at hp
  have := hp (t, TypeDef.union ms) hmem
  simp only [] at this
  rw [List.all_eq_true] at this
  exact this m hm


theorem renderField_noArgs (cfg : Config) (field : FieldDef) (c : GenCall)
    (q : String) (st : GenState) (hx : cfg.excludeNestedArgs = true)
    (hd : 2 ≤ c.curDepth) :
    renderField cfg field c q st =
      if q = "" then (indent c.curDepth ++ field.name, st)
      else (indent c.curDepth ++ field.name ++ "\x7b\n" ++ q ++ "\n" ++
        indent c.curDepth ++ "\x7d", st) := by
  have hc : (decide (field.args.length ≠ 0) &&
      (decide (c.curDepth ≤ 1) || !cfg.excludeNestedArgs)) = false := by
    have h1 : ¬ c.curDepth ≤ 1 := by omega
    simp [hx, h1]
  unfold renderField
  rw [hc]
  rfl

theorem genFieldsAux_frame (gq : GenCall → Option GenResult) (hgq : NestedFrame gq) :
    ∀ ns pty pname st d fu res, 2 ≤ d →
      genFieldsAux gq ns pty pname st d fu = some res →
      res.2.argumentsDict = st.argumentsDict ∧
      res.2.duplicateArgCounts = st.duplicateArgCounts ∧
      (∀ s ∈ res.1, noParen s = true) := by
  intro ns
  induction ns with
  | nil =>
    intro pty pname st d fu res hd h
    unfold genFieldsAux at h
    injection h with h
    subst h
    exact ⟨rfl, rfl, fun s hs => absurd hs (List.not_mem_nil s)⟩
  | cons n ns ih =>
    intro pty pname st d fu res hd h
    unfold genFieldsAux at h
    cases hg : gq (GenCall.mk n pty pname st d fu) with
    | none => rw [hg] at h; simp at h
    | some r =>
      obtain ⟨q, rst⟩ := r
      simp only [hg] at h
      cases hrest : genFieldsAux gq ns pty pname rst d fu with
      | none => simp only [hrest] at h; exact Option.noConfusion h
      | some res2 =>
        obtain ⟨rest, st2⟩ := res2
        simp only [hrest] at h
        injection h with h
        subst h
        obtain ⟨a1, d1, p1⟩ := hgq (GenCall.mk n pty pname st d fu) (GenResult.mk q rst) hd hg
        obtain ⟨a2, d2, p2⟩ := ih pty pname rst d fu (rest, st2) hd hrest
        have a1' : rst.argumentsDict = st.argumentsDict := a1
        have d1' : rst.duplicateArgCounts = st.duplicateArgCounts := d1
        refine ⟨?_, ?_, ?_⟩
        · show st2.argumentsDict = st.argumentsDict
          rw [a2, a1']
        · show st2.duplicateArgCounts = st.duplicateArgCounts
          rw [d2, d1']
        · intro s hs
          rcases List.mem_cons.mp hs with he | hm
          · subst he; exact p1
          · exact p2 s hm

theorem genUnionAux_frame (sch : Schema) (gq : GenCall → Option GenResult)
    (hgq : NestedFrame gq) :
    ∀ ms curName st d res, (∀ m ∈ ms, noParen m = true) →
      genUnionAux sch gq ms curName st d = some res →
      res.2.argumentsDict = st.argumentsDict ∧
      res.2.duplicateArgCounts = st.duplicateArgCounts ∧
      noParen res.1 = true := by
  intro ms
  induction ms with
  | nil =>
    intro curName st d res hms h
    unfold genUnionAux at h
    injection h with h
    subst h
    exact ⟨rfl, rfl, rfl⟩
  | cons m ms ih =>
    intro curName st d res hms h
    unfold genUnionAux at h
    cases hgt : sch.getType m with
    | none => simp only [hgt] at h; exact Option.noConfusion h
    | some mty =>
      simp only [hgt] at h
      cases hfs : mty.fieldsOf with
      | none => simp only [hfs] at h; exact Option.noConfusion h
      | some mfields =>
        simp only [hfs] at h
        cases hgf : genFieldsAux gq (mfields.map fun f => f.name) m curName st (d + 2) true with
        | none => simp only [hgf] at h; exact Option.noConfusion h
        | some res1 =>
          obtain ⟨parts, st1⟩ := res1
          simp only [hgf] at h
          cases hgu : genUnionAux sch gq ms curName st1 d with
          | none => simp only [hgu] at h; exact Option.noConfusion h
          | some res2 =>
            obtain ⟨rest, st2⟩ := res2
            simp only [hgu] at h
            injection h with h
            subst h
            obtain ⟨a1, d1, p1⟩ := genFieldsAux_frame gq hgq _ m curName st (d + 2) true
              (parts, st1) (by omega) hgf
            obtain ⟨a2, d2, p2⟩ := ih curName st1 d (rest, st2)
              (fun x hx => hms x (List.mem_cons_of_mem m hx)) hgu
            have a1' : st1.argumentsDict = st.argumentsDict := a1
            have d1' : st1.duplicateArgCounts = st.duplicateArgCounts := d1
            have a2' : st2.argumentsDict = st1.argumentsDict := a2
            have d2' : st2.duplicateArgCounts = st1.duplicateArgCounts := d2
            refine ⟨?_, ?_, ?_⟩
            · show st2.argumentsDict = st.argumentsDict
              rw [a2', a1']
            · show st2.duplicateArgCounts = st.duplicateArgCounts
              rw [d2', d1']
            · show noParen (_ ++ rest) = true
              rw [noParen_append]
              have hfr : noParen (if joinNonempty parts = "" then ""
                  else indent (d + 1) ++ "... on " ++ m ++ " \x7b\n" ++
                    joinNonempty parts ++ "\n" ++ indent (d + 1) ++ "\x7d\n") = true := by
                by_cases hq : joinNonempty parts = ""
                · rw [if_pos hq]; rfl
                · rw [if_neg hq]
                  have hm : noParen m = true := hms m (List.mem_cons_self m ms)
                  have hj : noParen (joinNonempty parts) = true :=
                    noParen_joinNonempty parts (fun s hs => p1 s hs)
                  simp only [noParen_append, noParen_indent, hm, hj]
                  rfl
              rw [hfr, p2]
              rfl


theorem generateQueryBody_frame (sch : Schema) (cfg : Config)
    (gq : GenCall → Option GenResult) (hx : cfg.excludeNestedArgs = true)
    (hp : parenFreeSchema sch = true) (hgq : NestedFrame gq) :
    NestedFrame (generateQueryBody sch cfg gq) := by
  intro c r hd h
  unfold generateQueryBody at h
  split at h
  · exact Option.noConfusion h
  · rename_i field hlf
    have hnm : noParen field.name = true := lookupField_noParen sch _ _ field hp hlf
    split at h
    · exact Option.noConfusion h
    · rename_i curType hgt
      split at h
      -- object type
      · rename_i curFields
        simp only [] at h
        split at h
        · rename_i hfu
          split at h
          · rename_i hcut
            injection h with h
            subst h
            exact ⟨rfl, rfl, rfl⟩
          · rename_i hcut
            split at h
            · exact Option.noConfusion h
            · rename_i parts st1 hgf
              obtain ⟨a1, d1, p1⟩ := genFieldsAux_frame gq hgq _ _ _ _ _ _
                (parts, st1) (by omega) hgf
              have a1' : st1.argumentsDict = c.st.argumentsDict := a1
              have d1' : st1.duplicateArgCounts = c.st.duplicateArgCounts := d1
              split at h
              · rename_i hq
                injection h with h
                subst h
                exact ⟨a1', d1', rfl⟩
              · rename_i hq
                rw [renderField_noArgs cfg field c (joinNonempty parts) st1 hx hd,
                  if_neg hq] at h
                injection h with h
                subst h
                refine ⟨a1', d1', ?_⟩
                show noParen (indent c.curDepth ++ field.name ++ "\x7b\n" ++
                  joinNonempty parts ++ "\n" ++ indent c.curDepth ++ "\x7d") = true
                have hj : noParen (joinNonempty parts) = true :=
                  noParen_joinNonempty parts p1
                simp only [noParen_append, noParen_indent, hnm, hj]
                rfl
        · rename_i hfu
          split at h
          · rename_i hcut
            injection h with h
            subst h
            exact ⟨rfl, rfl, rfl⟩
          · rename_i hcut
            split at h
            · exact Option.noConfusion h
            · rename_i parts st1 hgf
              obtain ⟨a1, d1, p1⟩ := genFieldsAux_frame gq hgq _ _ _ _ _ _
                (parts, st1) (by omega) hgf
              have a1' : st1.argumentsDict = c.st.argumentsDict := a1
              have d1' : st1.duplicateArgCounts = c.st.duplicateArgCounts := d1
              split at h
              · rename_i hq
                injection h with h
                subst h
                exact ⟨a1', d1', rfl⟩
              · rename_i hq
                rw [renderField_noArgs cfg field c (joinNonempty parts) st1 hx hd,
                  if_neg hq] at h
                injection h with h
                subst h
                refine ⟨a1', d1', ?_⟩
                show noParen (indent c.curDepth ++ field.name ++ "\x7b\n" ++
                  joinNonempty parts ++ "\n" ++ indent c.curDepth ++ "\x7d") = true
                have hj : noParen (joinNonempty parts) = true :=
                  noParen_joinNonempty parts p1
                simp only [noParen_append, noParen_indent, hnm, hj]
                rfl
      -- scalar type
      · rw [renderField_noArgs cfg field c "" c.st hx hd, if_pos rfl] at h
        injection h with h
        subst h
        refine ⟨rfl, rfl, ?_⟩
        show noParen (indent c.curDepth ++ field.name) = true
        simp only [noParen_append, noParen_indent, hnm]
        rfl
      -- union type
      · rename_i members
        rw [renderField_noArgs cfg field c "" c.st hx hd, if_pos rfl] at h
        split at h
        rename_i withA st2 hpair
        injection hpair with e1 e2
        subst e1
        subst e2
        split at h
        · rename_i hme
          injection h with h
          subst h
          refine ⟨rfl, rfl, ?_⟩
          show noParen (indent c.curDepth ++ field.name) = true
          simp only [noParen_append, noParen_indent, hnm]
          rfl
        · rename_i hme
          split at h
          · exact Option.noConfusion h
          · rename_i frags st3 hgu
            injection h with h
            subst h
            have hms : ∀ m ∈ members, noParen m = true := fun m hm =>
              unionMember_noParen sch _ members m hp hgt hm
            obtain ⟨a2, d2, p2⟩ := genUnionAux_frame sch gq hgq members c.curName
              c.st c.curDepth (frags, st3) hms hgu
            have a2' : st3.argumentsDict = c.st.argumentsDict := a2
            have d2' : st3.duplicateArgCounts = c.st.duplicateArgCounts := d2
            refine ⟨a2', d2', ?_⟩
            show noParen (indent c.curDepth ++ field.name ++ "\x7b\n" ++ frags ++
              indent c.curDepth ++ "\x7d") = true
            have p2' : noParen frags = true := p2
            simp only [noParen_append, noParen_indent, hnm, p2']
            rfl

theorem generateQuery_frame (sch : Schema) (cfg : Config)
    (hx : cfg.excludeNestedArgs = true) (hp : parenFreeSchema sch = true) :
    ∀ fuel, NestedFrame (generateQuery sch cfg fuel) := by
  intro fuel
  induction fuel with
  | zero => intro c r hd h; exact Option.noConfusion h
  | succ fuel ih =>
    exact fun c r hd h => generateQueryBody_frame sch cfg _ hx hp ih c r hd h

/-- C8: when excludeNestedArgs is true, no descendant call (curDepth at
least 2) renders a parenthesized argument list — its output contains no
parenthesis at all, provided the schema's own names contain none — and the
operation-wide argumentsDict and duplicateArgCounts are returned exactly as
received: descendants never bind anything, so the variable signature holds
only the root field's own bindings. -/
theorem C8_excludeNestedArgs (sch : Schema) (cfg : Config) (fuel : Nat)
    (c : GenCall) (r : GenResult) (hx : cfg.excludeNestedArgs = true)
    (hp : parenFreeSchema sch = true) (hd : 2 ≤ c.curDepth)
    (h : generateQuery sch cfg fuel c = some r) :
    r.st.argumentsDict = c.st.argumentsDict ∧
    r.st.duplicateArgCounts = c.st.duplicateArgCounts ∧
    noParen r.queryStr = true :=
  generateQuery_frame sch cfg hx hp fuel c r hd h

theorem C8_excludeNestedArgs_witness :
    c8SubResult.st.argumentsDict = c8SubCall.st.argumentsDict ∧
    c8SubResult.st.duplicateArgCounts = c8SubCall.st.duplicateArgCounts ∧
    noParen c8SubResult.queryStr = true :=
  C8_excludeNestedArgs schC8 cfgExcl 10 c8SubCall c8SubResult (by rfl) (by rfl)
    (by decide) (by rfl)

end GqlGen
